import Mathlib

/-!
Verification of the watermark layout generator and the transformation
handlers of the image-processing service (src/controllers/imageController.ts),
via a shallow embedding in Lean.  Numeric values of the source are embedded
as exact rationals; the diagonal anchor stepping, whose iteration count is
sensitive to rounding, is additionally carried out under an explicit
binary64 round-to-nearest model (fl below).  Loops become fuelled
recursion, and the handlers pure functions from request data to the ordered
list of observable effects.
-/

set_option maxRecDepth 4000

namespace ImageAPI

attribute [local semireducible] Rat.add Rat.mul Rat.sub Rat.inv Rat.ofScientific

/-- One repetition instance of the watermark text, as emitted into the overlay
by createWatermarkSVG: position, font size, rotation (degrees), opacity
fraction of the fill colour, and the text itself. -/
structure OverlayElement where
  x : ℚ
  y : ℚ
  fontSize : ℚ
  rotationDegrees : ℚ
  opacityFraction : ℚ
  text : String
deriving DecidableEq

/-- Embedding of Math.max on two numbers: the larger argument. -/
def jsMax (a b : ℚ) : ℚ := if a < b then b else a

/-- Font size computed once per createWatermarkSVG call:
Math.max(width / 20, 24). -/
def fontSizeOf (width : ℕ) : ℚ := jsMax ((width : ℚ) / 20) 24

/-- The Math.max embedding agrees with the order-theoretic maximum. -/
lemma jsMax_eq_max (a b : ℚ) : jsMax a b = max a b := by
  unfold jsMax
  rcases lt_or_le a b with h | h
  · rw [if_pos h, max_eq_right h.le]
  · rw [if_neg (not_lt.mpr h), max_eq_left h]

/-- Floor of the base-two logarithm by fuelled halving. -/
def natLog2F : ℕ → ℕ → ℕ
  | 0, _ => 0
  | fuel + 1, n => if n ≤ 1 then 0 else natLog2F fuel (n / 2) + 1

/-- Floor of the base-two logarithm of a positive natural number. -/
def natLog2 (n : ℕ) : ℕ := natLog2F n n

/-- Rounding of the fraction n / d to the nearest integer, ties to even. -/
def rnd2 (n d : ℕ) : ℕ :=
  let i := n / d
  let r := n % d
  if 2 * r < d then i
  else if d < 2 * r then i + 1
  else if i % 2 = 0 then i else i + 1

/-- The rational power of two with an integer exponent, executable. -/
def pow2q : ℤ → ℚ
  | .ofNat n => ((2 ^ n : ℕ) : ℚ)
  | .negSucc n => 1 / ((2 ^ (n + 1) : ℕ) : ℚ)

/-- Floor of the base-two logarithm of a positive rational, correct for
magnitudes of at least 2 to the -120, far below every value the embedded
arithmetic produces. -/
def ilog2q (q : ℚ) : ℤ := (natLog2 ((q.num.toNat * 2 ^ 120) / q.den) : ℤ) - 120

/-- Rounding of a positive rational to the nearest binary64 value: 53
significant bits, round to nearest, ties to even; exponents unbounded,
which agrees with doubles away from overflow and subnormals. -/
def flround (q : ℚ) : ℚ :=
  let z := ilog2q q
  let scaled := q * pow2q (52 - z)
  ((rnd2 scaled.num.toNat scaled.den : ℕ) : ℚ) * pow2q (z - 52)

/-- Rounding of a rational to the nearest binary64 value. -/
def fl (q : ℚ) : ℚ :=
  if q = 0 then 0
  else if 0 < q then flround q
  else -(flround (-q))

/-- The binary64 value of Math.max(width / 20, 24) that the program holds
at run time; it drives the diagonal spacing.  Its exact counterpart
fontSizeOf denotes the same source expression and agrees with it whenever
width / 20 is exactly representable. -/
def fontSizeD (width : ℕ) : ℚ := jsMax (fl ((width : ℚ) / 20)) 24

/-- Fuelled embedding of the double-precision loop head
for (let v = y; v < stop; v += step): each accumulation rounds to
binary64. -/
def stepPointsFP : ℕ → ℚ → ℚ → ℚ → List ℚ
  | 0, _, _, _ => []
  | fuel + 1, y, stop, step =>
      if y < stop then y :: stepPointsFP fuel (fl (y + step)) stop step else []

/-- Fuelled embedding of the loop head
for (let v = y; v < stop; v += step) collecting the successive loop-variable
values.  The fuel is a modelling artifact; every use in this file supplies
fuel exceeding the number of iterations the loop performs, which the
characterization lemma stepPoints_eq_range makes precise. -/
def stepPoints : ℕ → ℚ → ℚ → ℚ → List ℚ
  | 0, _, _, _ => []
  | fuel + 1, y, stop, step =>
      if y < stop then y :: stepPoints fuel (y + step) stop step else []

/-- Grid style: spacings width/5 and height/5, outer loop over y from 0,
inner loop over x from 0, no rotation, fill opacity 0.3. -/
def gridElements (width height : ℕ) (text : String) : List OverlayElement :=
  let fontSize := fontSizeOf width
  let gridSpacingX : ℚ := (width : ℚ) / 5
  let gridSpacingY : ℚ := (height : ℚ) / 5
  (stepPoints 16 0 (height : ℚ) gridSpacingY).flatMap (fun y =>
    (stepPoints 16 0 (width : ℚ) gridSpacingX).map (fun x =>
      ⟨x, y, fontSize, 0, 3/10, text⟩))

/-- Diagonal style: spacing fontSize * 3, outer loop over y from -height
while y < height * 2, inner loop over x from -width while x < width * 2,
rotation -30 degrees, fill opacity 0.3.  The spacing, the loop bounds and
the accumulation are carried out in the binary64 arithmetic of the source
(which determines the anchor count); the font-size attribute of each
element is recorded by its shared formula value, and width and height are
taken exactly representable, as they are for any raster image. -/
def diagonalElements (width height : ℕ) (text : String) : List OverlayElement :=
  let fontSize := fontSizeOf width
  let diagonalSpacing : ℚ := fl (fontSizeD width * 3)
  (stepPointsFP (3 * height + 3) (-(height : ℚ)) (fl ((height : ℚ) * 2)) diagonalSpacing).flatMap
    (fun y =>
      (stepPointsFP (3 * width + 3) (-(width : ℚ)) (fl ((width : ℚ) * 2)) diagonalSpacing).map
        (fun x => ⟨x, y, fontSize, -30, 3/10, text⟩))

/-- Scattered style: 50 elements; element i draws three consecutive values
from the ambient random stream, in source order x, y, rotation, scaled by
width, height and 360 respectively; fill opacity 0.3. -/
def scatteredElements (width height : ℕ) (text : String) (rand : ℕ → ℚ) :
    List OverlayElement :=
  let fontSize := fontSizeOf width
  (List.range 50).map (fun i =>
    ⟨rand (3 * i) * (width : ℚ), rand (3 * i + 1) * (height : ℚ), fontSize,
     rand (3 * i + 2) * 360, 3/10, text⟩)

/-- The createWatermarkSVG switch over the style string, returning the layout
it serializes into the SVG, or the thrown error for an unrecognized style. -/
def createWatermarkSVG (width height : ℕ) (style text : String) (rand : ℕ → ℚ) :
    Except String (List OverlayElement) :=
  if style = "diagonal" then .ok (diagonalElements width height text)
  else if style = "grid" then .ok (gridElements width height text)
  else if style = "scattered" then .ok (scatteredElements width height text rand)
  else .error ("Invalid watermark style")

/-- Ceiling of a positive rational splits off one unit. -/
lemma ceil_pos_succ (a : ℚ) (ha : 0 < a) : ⌈a⌉₊ = ⌈a - 1⌉₊ + 1 := by
  rcases le_or_lt a 1 with h1 | h1
  · have hc1 : ⌈a⌉₊ = 1 := by
      have hle : ⌈a⌉₊ ≤ 1 := Nat.ceil_le.mpr (by exact_mod_cast h1)
      have hge : 0 < ⌈a⌉₊ := Nat.ceil_pos.mpr ha
      omega
    have hc0 : ⌈a - 1⌉₊ = 0 := Nat.ceil_eq_zero.mpr (by linarith)
    omega
  · have h0 : (0 : ℚ) ≤ a - 1 := by linarith
    have : ⌈(a - 1) + 1⌉₊ = ⌈a - 1⌉₊ + 1 := Nat.ceil_add_one h0
    calc ⌈a⌉₊ = ⌈(a - 1) + 1⌉₊ := by ring_nf
    _ = ⌈a - 1⌉₊ + 1 := this

/-- The loop for (v = y0; v < stop; v += step) with positive step visits
exactly the arithmetic progression y0, y0+step, ..., one value for each
j < ceil((stop - y0)/step), provided the fuel covers that count. -/
lemma stepPoints_eq_range (step : ℚ) (hs : 0 < step) (stop : ℚ) :
    ∀ (fuel : ℕ) (y0 : ℚ) (n : ℕ), ⌈(stop - y0) / step⌉₊ = n → n ≤ fuel →
      stepPoints fuel y0 stop step =
        (List.range n).map (fun j : ℕ => y0 + (j : ℚ) * step) := by
  intro fuel
  induction fuel with
  | zero =>
      intro y0 n hn hf
      have : n = 0 := Nat.le_zero.mp hf
      subst this
      simp [stepPoints]
  | succ fuel ih =>
      intro y0 n hn hf
      by_cases hy : y0 < stop
      · have ha : 0 < (stop - y0) / step := div_pos (by linarith) hs
        have hsplit : ⌈(stop - y0) / step⌉₊ = ⌈(stop - y0) / step - 1⌉₊ + 1 :=
          ceil_pos_succ _ ha
        have harg : (stop - y0) / step - 1 = (stop - (y0 + step)) / step := by
          field_simp
          ring
        obtain ⟨m, hm⟩ : ∃ m, n = m + 1 := by
          rcases n with _ | m
          · exfalso
            rw [hn] at hsplit
            omega
          · exact ⟨m, rfl⟩
        subst hm
        have hm' : ⌈(stop - (y0 + step)) / step⌉₊ = m := by
          rw [← harg]
          rw [hn] at hsplit
          omega
        have hrec := ih (y0 + step) m hm' (by omega)
        have hstep : stepPoints (fuel + 1) y0 stop step =
            y0 :: stepPoints fuel (y0 + step) stop step := by
          simp [stepPoints, hy]
        rw [hstep, hrec, List.range_succ_eq_map, List.map_cons, List.map_map]
        refine List.cons_eq_cons.mpr ⟨by push_cast; ring, ?_⟩
        apply List.map_congr_left
        intro j _
        simp only [Function.comp_apply]
        push_cast
        ring
      · have hle : (stop - y0) / step ≤ 0 := by
          rw [div_le_iff₀ hs]
          linarith
        have : ⌈(stop - y0) / step⌉₊ = 0 := Nat.ceil_eq_zero.mpr hle
        rw [this] at hn
        subst hn
        cases fuel <;> simp [stepPoints, hy]

/-- Binding a constant-length family multiplies lengths. -/
lemma length_flatMap_const {α β : Type} (l : List α) (f : α → List β) (n : ℕ)
    (hf : ∀ a, (f a).length = n) : (l.flatMap f).length = l.length * n := by
  induction l with
  | nil => simp
  | cons a t ih =>
      simp [List.flatMap_cons, hf a, ih]
      ring

/-- Arithmetic progression of anchor coordinates: start, start+step, ...,
count values in all. -/
def anchorProgression (start step : ℚ) (count : ℕ) : List ℚ :=
  (List.range count).map (fun j : ℕ => start + (j : ℚ) * step)

/-- Reference enumeration of the diagonal layout, written from the words of
the specification: spacing = fontSize * 3, anchors with y ranging from
-height up to (but excluding) 2*height in steps of spacing (outer loop) and
x ranging from -width up to (but excluding) 2*width in steps of spacing
(inner loop), each anchor one element with rotation -30 and opacity 0.3. -/
def diagonalLayoutSpec (width height : ℕ) (text : String) : List OverlayElement :=
  let fontSize := max ((width : ℚ) / 20) 24
  let spacing := fontSize * 3
  let ys := anchorProgression (-(height : ℚ)) spacing
    ⌈(2 * (height : ℚ) - -(height : ℚ)) / spacing⌉₊
  let xs := anchorProgression (-(width : ℚ)) spacing
    ⌈(2 * (width : ℚ) - -(width : ℚ)) / spacing⌉₊
  ys.flatMap (fun y => xs.map (fun x => ⟨x, y, fontSize, -30, 3/10, text⟩))

/-- The number of diagonal anchor steps along an axis of extent n fits under
the fuel 3 * n + 3 used in the embedding. -/
lemma diagonal_ceil_le (n : ℕ) (s : ℚ) (hs : 1 ≤ s) :
    ⌈((n : ℚ) * 2 - -(n : ℚ)) / s⌉₊ ≤ 3 * n + 3 := by
  have h1 : ((n : ℚ) * 2 - -(n : ℚ)) / s ≤ ((3 * n : ℕ) : ℚ) := by
    have h2 : ((n : ℚ) * 2 - -(n : ℚ)) = ((3 * n : ℕ) : ℚ) := by
      push_cast
      ring
    rw [h2]
    exact div_le_self (by positivity) hs
  calc ⌈((n : ℚ) * 2 - -(n : ℚ)) / s⌉₊ ≤ ⌈((3 * n : ℕ) : ℚ)⌉₊ :=
        Nat.ceil_le_ceil h1
  _ = 3 * n := Nat.ceil_natCast _
  _ ≤ 3 * n + 3 := by omega

/-- Each axis of the diagonal layout equals the spec progression. -/
lemma diagonal_axis_eq (n : ℕ) (s : ℚ) (hs1 : 1 ≤ s) :
    stepPoints (3 * n + 3) (-(n : ℚ)) ((n : ℚ) * 2) s =
      anchorProgression (-(n : ℚ)) s ⌈(2 * (n : ℚ) - -(n : ℚ)) / s⌉₊ := by
  have hs : 0 < s := by linarith
  have hxy : (2 * (n : ℚ) - -(n : ℚ)) = ((n : ℚ) * 2 - -(n : ℚ)) := by ring
  rw [anchorProgression, hxy]
  exact stepPoints_eq_range s hs _ _ _ _ rfl (diagonal_ceil_le n s hs1)

/-- The grid axis of extent n, stepped by n/5, is the 5-point progression
0, n/5, 2n/5, 3n/5, 4n/5. -/
lemma grid_axis_eq (n : ℕ) (hn : 0 < n) :
    stepPoints 16 0 (n : ℚ) ((n : ℚ) / 5) =
      (List.range 5).map (fun j : ℕ => 0 + (j : ℚ) * ((n : ℚ) / 5)) := by
  have hne : (n : ℚ) ≠ 0 := Nat.cast_ne_zero.mpr hn.ne'
  have hstep : (0 : ℚ) < (n : ℚ) / 5 := by positivity
  have hcount : ⌈((n : ℚ) - 0) / ((n : ℚ) / 5)⌉₊ = 5 := by
    have : ((n : ℚ) - 0) / ((n : ℚ) / 5) = 5 := by
      field_simp
    rw [this]
    norm_num
  exact stepPoints_eq_range _ hstep _ _ _ _ hcount (by omega)

/-- Correctness of the fuelled base-two logarithm: within its fuel it
brackets a positive argument between consecutive powers of two. -/
lemma natLog2F_spec : ∀ (fuel n : ℕ), 1 ≤ n → n ≤ fuel →
    2 ^ natLog2F fuel n ≤ n ∧ n < 2 ^ (natLog2F fuel n + 1) := by
  intro fuel
  induction fuel with
  | zero =>
      intro n h1 h2
      exact absurd h2 (by omega)
  | succ fuel ih =>
      intro n h1 h2
      by_cases hle : n ≤ 1
      · have hn1 : n = 1 := by omega
        subst hn1
        simp [natLog2F]
      · have hrec : natLog2F (fuel + 1) n = natLog2F fuel (n / 2) + 1 := by
          simp [natLog2F, hle]
        obtain ⟨hlo, hhi⟩ := ih (n / 2) (by omega) (by omega)
        have e1 : (2:ℕ) ^ (natLog2F fuel (n / 2) + 1) =
            2 ^ natLog2F fuel (n / 2) * 2 := pow_succ _ _
        have e2 : (2:ℕ) ^ (natLog2F fuel (n / 2) + 1 + 1) =
            2 ^ (natLog2F fuel (n / 2) + 1) * 2 := pow_succ _ _
        rw [hrec]
        omega

/-- Correctness of the base-two logarithm on positive naturals. -/
lemma natLog2_spec (n : ℕ) (h1 : 1 ≤ n) :
    2 ^ natLog2 n ≤ n ∧ n < 2 ^ (natLog2 n + 1) :=
  natLog2F_spec n n h1 le_rfl

/-- The base-two logarithm is the unique bracketing exponent. -/
lemma natLog2_unique (n a : ℕ) (hlo : 2 ^ a ≤ n) (hhi : n < 2 ^ (a + 1)) :
    natLog2 n = a := by
  have h1 : 1 ≤ n := le_trans (Nat.one_le_pow _ _ (by norm_num)) hlo
  obtain ⟨hlo2, hhi2⟩ := natLog2_spec n h1
  rcases Nat.lt_trichotomy (natLog2 n) a with h | h | h
  · have hp : (2:ℕ) ^ (natLog2 n + 1) ≤ 2 ^ a :=
      Nat.pow_le_pow_right (by norm_num) (by omega)
    omega
  · exact h
  · have hp : (2:ℕ) ^ (a + 1) ≤ 2 ^ natLog2 n :=
      Nat.pow_le_pow_right (by norm_num) (by omega)
    omega

/-- The executable power of two agrees with the integer power of two. -/
lemma pow2q_eq (e : ℤ) : pow2q e = (2 : ℚ) ^ e := by
  cases e with
  | ofNat n =>
      show ((2 ^ n : ℕ) : ℚ) = (2 : ℚ) ^ (n : ℤ)
      rw [zpow_natCast]
      push_cast
      ring
  | negSucc n =>
      show 1 / ((2 ^ (n + 1) : ℕ) : ℚ) = (2 : ℚ) ^ (Int.negSucc n)
      rw [zpow_negSucc, one_div]
      congr 1
      push_cast
      ring

/-- The executable power of two is positive. -/
lemma pow2q_pos (e : ℤ) : 0 < pow2q e := by
  rw [pow2q_eq]
  positivity

/-- The executable power of two is multiplicative in the exponent. -/
lemma pow2q_add (a b : ℤ) : pow2q (a + b) = pow2q a * pow2q b := by
  rw [pow2q_eq, pow2q_eq, pow2q_eq, zpow_add₀ (by norm_num : (2:ℚ) ≠ 0)]

/-- The executable power of two with exponent zero. -/
lemma pow2q_zero : pow2q 0 = 1 := by
  rw [pow2q_eq]
  norm_num

/-- The executable power of two at a natural exponent. -/
lemma pow2q_natCast (n : ℕ) : pow2q (n : ℤ) = ((2 ^ n : ℕ) : ℚ) := rfl

/-- On positive rationals of magnitude at least 2 to the -120 the integer
logarithm brackets its argument between consecutive powers of two. -/
lemma ilog2q_spec (q : ℚ) (hq : 0 < q) (hql : pow2q (-120) ≤ q) :
    pow2q (ilog2q q) ≤ q ∧ q < pow2q (ilog2q q + 1) := by
  have hD : 0 < q.den := q.pos
  have hNpos : (0:ℤ) < q.num := Rat.num_pos.mpr hq
  have hNcast : ((q.num.toNat : ℤ)) = q.num := Int.toNat_of_nonneg hNpos.le
  have hnumq : ((q.num.toNat : ℕ) : ℚ) = ((q.num : ℤ) : ℚ) := by exact_mod_cast hNcast
  have hqf : q = (q.num.toNat : ℚ) / (q.den : ℚ) := by
    rw [hnumq, Rat.num_div_den]
  have hp120 : pow2q (-120) = 1 / ((2 ^ 120 : ℕ) : ℚ) := rfl
  have hden20 : q.den ≤ q.num.toNat * 2 ^ 120 := by
    have hpq : (1:ℚ) / ((2 ^ 120 : ℕ) : ℚ) ≤ (q.num.toNat : ℚ) / (q.den : ℚ) := by
      rw [← hqf, ← hp120]
      exact hql
    rw [div_le_div_iff (by positivity) (by exact_mod_cast hD)] at hpq
    have hpq2 : (q.den : ℚ) ≤ ((q.num.toNat * 2 ^ 120 : ℕ) : ℚ) := by
      push_cast at hpq ⊢
      linarith
    exact_mod_cast hpq2
  set K := (q.num.toNat * 2 ^ 120) / q.den with hKdef
  have hK1 : 1 ≤ K := (Nat.one_le_div_iff hD).mpr hden20
  obtain ⟨hKlo, hKhi⟩ := natLog2_spec K hK1
  have hdm := Nat.div_add_mod (q.num.toNat * 2 ^ 120) q.den
  have hmlt : (q.num.toNat * 2 ^ 120) % q.den < q.den := Nat.mod_lt _ hD
  have hb1 : K * q.den ≤ q.num.toNat * 2 ^ 120 := by
    calc K * q.den = q.den * K := Nat.mul_comm _ _
    _ ≤ q.den * K + (q.num.toNat * 2 ^ 120) % q.den := Nat.le_add_right _ _
    _ = q.num.toNat * 2 ^ 120 := hdm
  have hb2 : q.num.toNat * 2 ^ 120 < (K + 1) * q.den := by
    calc q.num.toNat * 2 ^ 120 = q.den * K + (q.num.toNat * 2 ^ 120) % q.den := hdm.symm
    _ < q.den * K + q.den := by omega
    _ = (K + 1) * q.den := by ring
  have hc1 : 2 ^ natLog2 K * q.den ≤ q.num.toNat * 2 ^ 120 :=
    le_trans (Nat.mul_le_mul_right _ hKlo) hb1
  have hc2 : q.num.toNat * 2 ^ 120 < 2 ^ (natLog2 K + 1) * q.den :=
    lt_of_lt_of_le hb2 (Nat.mul_le_mul_right _ (by omega))
  have hzdef : ilog2q q = (natLog2 K : ℤ) - 120 := rfl
  rw [hzdef]
  constructor
  · have heq : pow2q ((natLog2 K : ℤ) - 120) =
        ((2 ^ natLog2 K : ℕ) : ℚ) / ((2 ^ 120 : ℕ) : ℚ) := by
      rw [show (natLog2 K : ℤ) - 120 = (natLog2 K : ℤ) + (-120) by ring, pow2q_add,
        pow2q_natCast, hp120]
      ring
    rw [heq]
    conv_rhs => rw [hqf]
    rw [div_le_div_iff (by positivity) (by exact_mod_cast hD)]
    exact_mod_cast hc1
  · have heq : pow2q ((natLog2 K : ℤ) - 120 + 1) =
        ((2 ^ (natLog2 K + 1) : ℕ) : ℚ) / ((2 ^ 120 : ℕ) : ℚ) := by
      rw [show (natLog2 K : ℤ) - 120 + 1 = ((natLog2 K + 1 : ℕ) : ℤ) + (-120) by push_cast; ring,
        pow2q_add, pow2q_natCast, hp120]
      ring
    rw [heq]
    conv_lhs => rw [hqf]
    rw [div_lt_div_iff (by exact_mod_cast hD) (by positivity)]
    exact_mod_cast hc2

/-- Rounding to the nearest integer is the identity on integers. -/
lemma rnd2_one (n : ℕ) : rnd2 n 1 = n := by
  simp [rnd2, Nat.mod_one]

/-- Rounding leaves a positive value unchanged when its scaled form is an
integer, that value being exactly representable. -/
lemma flround_eq_self (q : ℚ) (hq : 0 < q)
    (hden : (q * pow2q (52 - ilog2q q)).den = 1) : flround q = q := by
  show ((rnd2 (q * pow2q (52 - ilog2q q)).num.toNat
      (q * pow2q (52 - ilog2q q)).den : ℕ) : ℚ) * pow2q (ilog2q q - 52) = q
  have hpos : 0 < q * pow2q (52 - ilog2q q) := mul_pos hq (pow2q_pos _)
  have hval : ((q * pow2q (52 - ilog2q q)).num : ℚ) = q * pow2q (52 - ilog2q q) := by
    conv_rhs => rw [← Rat.num_div_den (q * pow2q (52 - ilog2q q))]
    rw [hden]
    norm_num
  have htn : (((q * pow2q (52 - ilog2q q)).num.toNat : ℕ) : ℚ) =
      q * pow2q (52 - ilog2q q) := by
    rw [← hval]
    exact_mod_cast congrArg (fun z : ℤ => (z : ℚ))
      (Int.toNat_of_nonneg (Rat.num_nonneg.mpr hpos.le))
  rw [hden, rnd2_one, htn]
  have harg : (52 - ilog2q q) + (ilog2q q - 52) = 0 := by ring
  calc q * pow2q (52 - ilog2q q) * pow2q (ilog2q q - 52)
      = q * (pow2q (52 - ilog2q q) * pow2q (ilog2q q - 52)) := by ring
  _ = q * pow2q ((52 - ilog2q q) + (ilog2q q - 52)) := by rw [pow2q_add]
  _ = q * pow2q 0 := by rw [harg]
  _ = q := by rw [pow2q_zero, mul_one]

/-- The integer logarithm of a positive natural cast into the rationals. -/
lemma ilog2q_natCast (m : ℕ) (h1 : 1 ≤ m) : ilog2q (m : ℚ) = (natLog2 m : ℤ) := by
  have hnum : ((m : ℚ)).num = (m : ℤ) := Rat.num_natCast m
  have hden : ((m : ℚ)).den = 1 := Rat.den_natCast m
  obtain ⟨hlo, hhi⟩ := natLog2_spec m h1
  have hnl : natLog2 (m * 2 ^ 120) = natLog2 m + 120 := by
    apply natLog2_unique
    · calc (2:ℕ) ^ (natLog2 m + 120) = 2 ^ natLog2 m * 2 ^ 120 := pow_add 2 _ _
      _ ≤ m * 2 ^ 120 := Nat.mul_le_mul_right _ hlo
    · calc m * 2 ^ 120 < 2 ^ (natLog2 m + 1) * 2 ^ 120 :=
            (Nat.mul_lt_mul_right (by positivity)).mpr hhi
      _ = 2 ^ (natLog2 m + 120 + 1) := by
            rw [← pow_add]
  rw [ilog2q, hnum, hden, Nat.div_one]
  have htn : ((m : ℤ)).toNat = m := by omega
  rw [htn, hnl]
  push_cast
  ring

/-- Rounding is the identity on positive naturals up to 2 ^ 53. -/
lemma flround_natCast (m : ℕ) (h1 : 1 ≤ m) (h53 : m ≤ 2 ^ 53) :
    flround (m : ℚ) = m := by
  have hz := ilog2q_natCast m h1
  obtain ⟨hlo, hhi⟩ := natLog2_spec m h1
  have ha53 : natLog2 m ≤ 53 := by
    by_contra hcon
    have hp : (2:ℕ) ^ 54 ≤ 2 ^ natLog2 m := Nat.pow_le_pow_right (by norm_num) (by omega)
    have h2 : (2:ℕ) ^ 53 < 2 ^ 54 := by norm_num
    omega
  apply flround_eq_self _ (by positivity)
  rcases Nat.lt_or_ge (natLog2 m) 53 with hlt | hge
  · have hnn : (52:ℤ) - ilog2q (m:ℚ) = ((52 - natLog2 m : ℕ) : ℤ) := by
      rw [hz]
      omega
    rw [hnn, pow2q_natCast]
    have hmul : (m:ℚ) * ((2 ^ (52 - natLog2 m) : ℕ) : ℚ) =
        ((m * 2 ^ (52 - natLog2 m) : ℕ) : ℚ) := by
      push_cast
      ring
    rw [hmul, Rat.den_natCast]
  · have ha : natLog2 m = 53 := le_antisymm ha53 hge
    have hm : m = 2 ^ 53 := by
      rw [ha] at hlo
      omega
    have hzz : (52:ℤ) - ilog2q (m:ℚ) = -1 := by
      rw [hz, ha]
      norm_num
    have hp : pow2q (-1) = 1/2 := by
      rw [pow2q_eq]
      norm_num
    rw [hzz, hp, hm]
    have hmul : (((2:ℕ) ^ 53 : ℕ):ℚ) * (1/2) = ((2 ^ 52 : ℕ) : ℚ) := by
      rw [show (53:ℕ) = 52 + 1 from rfl, pow_succ]
      push_cast
      ring
    rw [hmul, Rat.den_natCast]

/-- Rounding is the identity on natural values up to 2 ^ 53. -/
lemma fl_natCast (m : ℕ) (hm : m ≤ 2 ^ 53) : fl (m : ℚ) = m := by
  rcases Nat.eq_zero_or_pos m with h0 | hpos
  · subst h0
    simp [fl]
  · have hq : (0:ℚ) < (m:ℚ) := by exact_mod_cast hpos
    unfold fl
    rw [if_neg hq.ne', if_pos hq]
    exact flround_natCast m hpos hm

/-- Rounding is the identity on integer values of magnitude at most 2 ^ 53. -/
lemma fl_intCast (m : ℤ) (hm : m.natAbs ≤ 2 ^ 53) : fl (m : ℚ) = m := by
  rcases lt_trichotomy m 0 with hneg | h0 | hpos
  · have hqneg : ((m:ℚ)) < 0 := by exact_mod_cast hneg
    unfold fl
    rw [if_neg hqneg.ne, if_neg (by linarith)]
    have hint : (m.natAbs : ℤ) = -m := by omega
    have habs : ((m.natAbs : ℕ) : ℚ) = ((m.natAbs : ℤ) : ℚ) := (Int.cast_natCast _).symm
    have hcast : -(m:ℚ) = ((m.natAbs : ℕ) : ℚ) := by
      rw [habs, hint]
      push_cast
      ring
    rw [hcast, flround_natCast _ (by omega) hm, habs, hint]
    push_cast
    ring
  · subst h0
    simp [fl]
  · have hq : (0:ℚ) < (m:ℚ) := by exact_mod_cast hpos
    unfold fl
    rw [if_neg hq.ne', if_pos hq]
    have hint : (m.toNat : ℤ) = m := by omega
    have habs : ((m.toNat : ℕ) : ℚ) = ((m.toNat : ℤ) : ℚ) := (Int.cast_natCast _).symm
    have hcast : (m:ℚ) = ((m.toNat : ℕ) : ℚ) := by rw [habs, hint]
    rw [hcast, flround_natCast _ (by omega) (by omega), habs, hint]


/-- Round-to-nearest of n / d does not exceed an integer bound above the
fraction. -/
lemma rnd2_le (n d M : ℕ) (hd : 0 < d) (h : n ≤ M * d) : rnd2 n d ≤ M := by
  have hi : n / d ≤ M := by
    calc n / d ≤ M * d / d := Nat.div_le_div_right h
    _ = M := Nat.mul_div_cancel M hd
  have hdm := Nat.div_add_mod n d
  have hmlt : n % d < d := Nat.mod_lt _ hd
  simp only [rnd2]
  split_ifs with h1 h2 h3
  · exact hi
  · rcases Nat.lt_or_ge (n / d) M with h4 | h4
    · omega
    · exfalso
      have hie : n / d = M := le_antisymm hi h4
      have hsum : d * M + n % d = n := by
        rw [← hie]
        exact hdm
      have hMd : M * d = d * M := Nat.mul_comm _ _
      omega
  · exact hi
  · rcases Nat.lt_or_ge (n / d) M with h4 | h4
    · omega
    · exfalso
      have hie : n / d = M := le_antisymm hi h4
      have hsum : d * M + n % d = n := by
        rw [← hie]
        exact hdm
      have hMd : M * d = d * M := Nat.mul_comm _ _
      omega

/-- Round-to-nearest does not overshoot an integer bound while the exponent
stays at most 52. -/
lemma flround_le (q : ℚ) (M : ℕ) (hq : 0 < q) (hz52 : ilog2q q ≤ 52)
    (hM : q ≤ (M : ℚ)) : flround q ≤ (M : ℚ) := by
  show ((rnd2 (q * pow2q (52 - ilog2q q)).num.toNat
      (q * pow2q (52 - ilog2q q)).den : ℕ) : ℚ) * pow2q (ilog2q q - 52) ≤ (M : ℚ)
  set z := ilog2q q with hzdef
  set scaled := q * pow2q (52 - z) with hsdef
  have hspos : 0 < scaled := mul_pos hq (pow2q_pos _)
  have hnn : (52:ℤ) - z = (((52 - z).toNat : ℕ) : ℤ) := by omega
  set k := (52 - z).toNat with hkdef
  have hpk : pow2q (52 - z) = ((2 ^ k : ℕ) : ℚ) := by
    rw [hnn, pow2q_natCast]
  have hsle : scaled ≤ ((M * 2 ^ k : ℕ) : ℚ) := by
    rw [hsdef, hpk]
    push_cast
    have h2k : (0:ℚ) ≤ (2:ℚ) ^ k := by positivity
    exact mul_le_mul_of_nonneg_right hM h2k
  have hnum : scaled.num.toNat ≤ (M * 2 ^ k) * scaled.den := by
    have hdpos : (0:ℚ) < (scaled.den : ℚ) := by exact_mod_cast scaled.pos
    have h1 : (scaled.num : ℚ) ≤ ((M * 2 ^ k : ℕ) : ℚ) * (scaled.den : ℚ) := by
      rw [← Rat.num_div_den scaled, div_le_iff hdpos] at hsle
      exact hsle
    have h2 : scaled.num ≤ (((M * 2 ^ k) * scaled.den : ℕ) : ℤ) := by
      exact_mod_cast h1
    omega
  have hrnd : rnd2 scaled.num.toNat scaled.den ≤ M * 2 ^ k :=
    rnd2_le _ _ _ scaled.pos hnum
  have hple : ((rnd2 scaled.num.toNat scaled.den : ℕ) : ℚ) ≤ ((M * 2 ^ k : ℕ) : ℚ) := by
    exact_mod_cast hrnd
  have hppos : (0:ℚ) < pow2q (z - 52) := pow2q_pos _
  calc ((rnd2 scaled.num.toNat scaled.den : ℕ) : ℚ) * pow2q (z - 52)
      ≤ ((M * 2 ^ k : ℕ) : ℚ) * pow2q (z - 52) :=
        mul_le_mul_of_nonneg_right hple hppos.le
  _ = (M : ℚ) * (((2 ^ k : ℕ) : ℚ) * pow2q (z - 52)) := by
        push_cast
        ring
  _ = (M : ℚ) * (pow2q (52 - z) * pow2q (z - 52)) := by rw [hpk]
  _ = (M : ℚ) * pow2q ((52 - z) + (z - 52)) := by rw [pow2q_add]
  _ = (M : ℚ) * pow2q 0 := by
        have : (52 - z) + (z - 52) = 0 := by ring
        rw [this]
  _ = (M : ℚ) := by rw [pow2q_zero, mul_one]

/-- For a width of at most 480 the rounded width / 20 is at most 24, so the
computed font size is exactly 24. -/
lemma fontSizeD_of_le_480 (width : ℕ) (hw : width ≤ 480) : fontSizeD width = 24 := by
  rcases Nat.eq_zero_or_pos width with h0 | hpos
  · subst h0
    norm_num [fontSizeD, jsMax, fl]
  · have hq : (0:ℚ) < (width:ℚ)/20 := by
      have : (0:ℚ) < (width:ℚ) := by exact_mod_cast hpos
      positivity
    have hle24 : (width:ℚ)/20 ≤ ((24:ℕ):ℚ) := by
      rw [div_le_iff (by norm_num : (0:ℚ) < 20)]
      push_cast
      exact_mod_cast le_trans (Nat.cast_le.mpr hw) (by norm_num : ((480:ℕ):ℚ) ≤ 24 * 20)
    have hql : pow2q (-120) ≤ (width:ℚ)/20 := by
      rw [pow2q_eq]
      have h1 : (2:ℚ) ^ (-120 : ℤ) ≤ 1/20 := by
        rw [zpow_neg, inv_le_comm₀ (by positivity) (by norm_num)]
        calc (1:ℚ)/(1/20) = 20 := by norm_num
        _ ≤ 2 ^ (120:ℤ) := by
              rw [show ((120:ℤ)) = ((120:ℕ):ℤ) from rfl, zpow_natCast]
              norm_num
      calc (2:ℚ) ^ (-120:ℤ) ≤ 1/20 := h1
      _ ≤ (width:ℚ)/20 := by
            gcongr
            exact_mod_cast hpos
    obtain ⟨hzlo, _⟩ := ilog2q_spec _ hq hql
    have hz52 : ilog2q ((width:ℚ)/20) ≤ 52 := by
      by_contra hcon
      push_neg at hcon
      have h53 : pow2q 53 ≤ pow2q (ilog2q ((width:ℚ)/20)) := by
        rw [pow2q_eq, pow2q_eq]
        apply zpow_le_zpow_right₀ (by norm_num : (1:ℚ) ≤ 2)
        omega
      have hbig : (24:ℚ) < pow2q 53 := by
        rw [show ((53:ℤ)) = ((53:ℕ):ℤ) from rfl, pow2q_natCast]
        norm_num
      have hsmall : pow2q (ilog2q ((width:ℚ)/20)) ≤ ((24:ℕ):ℚ) := le_trans hzlo hle24
      push_cast at hsmall
      linarith
    have hfl : fl ((width:ℚ)/20) ≤ 24 := by
      unfold fl
      rw [if_neg hq.ne', if_pos hq]
      have hb := flround_le ((width:ℚ)/20) 24 hq hz52 hle24
      push_cast at hb
      exact hb
    unfold fontSizeD jsMax
    split_ifs with h
    · rfl
    · exact le_antisymm hfl (not_lt.mp h)

/-- For a width of at most 480 the diagonal spacing computed in binary64 is
exactly 72. -/
lemma diagonal_spacing_exact (width : ℕ) (hw : width ≤ 480) :
    fl (fontSizeD width * 3) = 72 := by
  rw [fontSizeD_of_le_480 width hw]
  rw [show (24:ℚ) * 3 = ((72:ℕ):ℚ) by norm_num, fl_natCast 72 (by norm_num)]
  norm_num

/-- Doubling is exact in binary64 for naturals up to 2 ^ 52. -/
lemma fl_double (n : ℕ) (hn : n ≤ 2 ^ 52) : fl ((n:ℚ) * 2) = ((2 * n : ℕ) : ℚ) := by
  rw [show ((n:ℚ) * 2) = ((2 * n : ℕ) : ℚ) by push_cast; ring]
  apply fl_natCast
  have hp : (2:ℕ) ^ 53 = 2 * 2 ^ 52 := by norm_num
  omega

/-- With an integer start, a positive integer step, and an integer stop with
room below 2 ^ 53, the double-precision stepping agrees with the exact
stepping: every accumulated value is an integer and rounds to itself. -/
lemma stepPointsFP_eq_exact :
    ∀ (fuel : ℕ) (a : ℤ) (s : ℕ) (stopZ : ℤ), 0 < s →
      -(2:ℤ) ^ 53 ≤ a → stopZ + s ≤ 2 ^ 53 →
      stepPointsFP fuel (a : ℚ) (stopZ : ℚ) (s : ℚ) =
        stepPoints fuel (a : ℚ) (stopZ : ℚ) (s : ℚ) := by
  intro fuel
  induction fuel with
  | zero => intro a s stopZ hs ha hstop; rfl
  | succ fuel ih =>
      intro a s stopZ hs ha hstop
      by_cases hy : (a : ℚ) < (stopZ : ℚ)
      · have haz : a < stopZ := by exact_mod_cast hy
        have hsum : (a : ℚ) + (s : ℚ) = ((a + (s:ℤ) : ℤ) : ℚ) := by push_cast; ring
        have hbound : (a + (s:ℤ)).natAbs ≤ 2 ^ 53 := by omega
        have hfl : fl ((a : ℚ) + (s : ℚ)) = ((a + (s:ℤ) : ℤ) : ℚ) := by
          rw [hsum, fl_intCast _ hbound]
        have hrec := ih (a + (s:ℤ)) s stopZ hs (by omega) hstop
        simp only [stepPointsFP, stepPoints, if_pos hy]
        rw [hfl, hrec, hsum]
      · simp only [stepPointsFP, stepPoints, if_neg hy]

/-- For dimensions with exact spacing 72 the double-precision diagonal axis
equals the exact anchor progression of the specification. -/
lemma diagonal_axis_exact (n : ℕ) (hn : n ≤ 2 ^ 50) :
    stepPointsFP (3 * n + 3) (-(n : ℚ)) (fl ((n : ℚ) * 2)) 72 =
      anchorProgression (-(n : ℚ)) 72 ⌈(2 * (n : ℚ) - -(n : ℚ)) / 72⌉₊ := by
  have hd : fl ((n:ℚ) * 2) = ((2 * n : ℕ) : ℚ) :=
    fl_double n (le_trans hn (by norm_num))
  have hp : (2:ℤ) ^ 50 * 8 = 2 ^ 53 := by norm_num
  have hnz : ((n:ℕ):ℤ) ≤ 2 ^ 50 := by exact_mod_cast hn
  have hbr := stepPointsFP_eq_exact (3 * n + 3) (-(n : ℤ)) 72 (2 * (n : ℤ))
    (by norm_num) (by omega) (by omega)
  have hax := diagonal_axis_eq n 72 (by norm_num)
  rw [hd]
  have hcast1 : ((2 * n : ℕ) : ℚ) = ((2 * (n:ℤ) : ℤ) : ℚ) := by push_cast; ring
  have hcast2 : (-(n : ℚ)) = ((-(n:ℤ) : ℤ) : ℚ) := by push_cast; ring
  have hcast3 : ((72:ℕ) : ℚ) = (72 : ℚ) := by norm_num
  rw [hcast1, hcast2, ← hcast3, hbr, hcast3, ← hcast2]
  have hcast4 : ((2 * (n:ℤ) : ℤ) : ℚ) = (n : ℚ) * 2 := by push_cast; ring
  rw [hcast4]
  exact hax

/-- C1: for every positive integer width and height and every non-empty text,
the layout generator invoked with style grid produces exactly 25 overlay
elements, each with rotationDegrees 0 and opacity 0.3 (the loops step x from
0 while x < width by width/5 and y from 0 while y < height by height/5, five
iterations per axis). -/
theorem grid_layout_count_rotation_opacity (width height : ℕ) (text : String)
    (rand : ℕ → ℚ) (hw : 0 < width) (hh : 0 < height) (_ht : text ≠ "") :
    createWatermarkSVG width height ("grid") text rand =
      .ok (gridElements width height text) ∧
    (gridElements width height text).length = 25 ∧
    ∀ e ∈ gridElements width height text,
      e.rotationDegrees = 0 ∧ e.opacityFraction = 3/10 := by
  refine ⟨rfl, ?_, ?_⟩
  · simp only [gridElements]
    rw [grid_axis_eq height hh, grid_axis_eq width hw]
    rw [length_flatMap_const _ _ 5 (by intro a; simp)]
    simp
  · intro e he
    simp only [gridElements, List.mem_flatMap, List.mem_map] at he
    obtain ⟨y, _, x, _, rfl⟩ := he
    exact ⟨rfl, rfl⟩

/-- Witness for C1 at width = height = 5 and text x. -/
theorem grid_layout_count_rotation_opacity_witness :
    (gridElements 5 5 ("x")).length = 25 :=
  (grid_layout_count_rotation_opacity 5 5 ("x") (fun _ => 0)
    (by norm_num) (by norm_num) (by decide)).2.1

/-- C2 counterexample: at width 484 and height 121 the double-precision
diagonal loop of the source emits six anchor rows (the accumulated y
reaches a value just below 242 after five steps of the rounded spacing
72.6), while the exact reference enumeration has five rows, so the layout
does not equal the reference enumeration there. -/
theorem diagonal_fp_extra_row_cex :
    (diagonalElements 484 121 ("x")).length = 120 ∧
    (diagonalLayoutSpec 484 121 ("x")).length = 100 ∧
    diagonalElements 484 121 ("x") ≠ diagonalLayoutSpec 484 121 ("x") := by
  have hmax : max ((484:ℚ)/20) 24 = 484/20 := max_eq_left (by norm_num)
  have hcy : ⌈(2 * (121:ℚ) - -(121:ℚ)) / (484/20 * 3)⌉₊ = 5 := by
    rw [show (2 * (121:ℚ) - -(121:ℚ)) / (484/20 * 3) = ((5:ℕ):ℚ) by norm_num]
    exact Nat.ceil_natCast 5
  have hcx : ⌈(2 * (484:ℚ) - -(484:ℚ)) / (484/20 * 3)⌉₊ = 20 := by
    rw [show (2 * (484:ℚ) - -(484:ℚ)) / (484/20 * 3) = ((20:ℕ):ℚ) by norm_num]
    exact Nat.ceil_natCast 20
  have h2 : (diagonalLayoutSpec 484 121 ("x")).length = 100 := by
    simp only [diagonalLayoutSpec, Nat.cast_ofNat]
    rw [hmax, hcy, hcx]
    rw [length_flatMap_const _ _ 20 (by intro a; simp [anchorProgression])]
    simp [anchorProgression]
  have h1 : (diagonalElements 484 121 ("x")).length = 120 := by decide
  refine ⟨h1, h2, ?_⟩
  intro hEq
  rw [hEq, h2] at h1
  norm_num at h1

/-- C2 (amended): the diagonal layout equals the reference enumeration of
the specification whenever the double-precision stepping is exact, in
particular for every width up to 480 (where the spacing is exactly 72) and
height up to 2 ^ 50; for every size, each anchor yields one element with
rotationDegrees -30 and opacity 0.3, and identical inputs produce the
identical element sequence regardless of the ambient random stream. -/
theorem diagonal_layout_amended :
    (∀ (width height : ℕ) (text : String), width ≤ 480 → height ≤ 2 ^ 50 →
      diagonalElements width height text = diagonalLayoutSpec width height text) ∧
    (∀ (width height : ℕ) (text : String),
      ∀ e ∈ diagonalElements width height text,
        e.rotationDegrees = -30 ∧ e.opacityFraction = 3/10) ∧
    (∀ (width height : ℕ) (text : String) (r1 r2 : ℕ → ℚ),
      createWatermarkSVG width height ("diagonal") text r1 =
        createWatermarkSVG width height ("diagonal") text r2) := by
  refine ⟨?_, ?_, fun _ _ _ r1 r2 => rfl⟩
  · intro width height text hw hh
    have hw50 : width ≤ 2 ^ 50 := le_trans hw (by norm_num)
    have hmax : max ((width:ℚ)/20) 24 = 24 := by
      apply max_eq_right
      rw [div_le_iff (by norm_num : (0:ℚ) < 20)]
      exact_mod_cast le_trans (Nat.cast_le.mpr hw) (by norm_num : ((480:ℕ):ℚ) ≤ 24 * 20)
    simp only [diagonalElements, diagonalLayoutSpec, fontSizeOf, jsMax_eq_max]
    rw [diagonal_spacing_exact width hw, hmax]
    rw [show (24:ℚ) * 3 = 72 by norm_num]
    rw [diagonal_axis_exact height hh, diagonal_axis_exact width hw50]
  · intro width height text e he
    simp only [diagonalElements, List.mem_flatMap, List.mem_map] at he
    obtain ⟨y, _, x, _, rfl⟩ := he
    exact ⟨rfl, rfl⟩

/-- Witness for C2 amended at width = height = 100: the double-precision
layout coincides with the exact reference enumeration. -/
theorem diagonal_layout_amended_witness :
    diagonalElements 100 100 ("x") = diagonalLayoutSpec 100 100 ("x") :=
  diagonal_layout_amended.1 100 100 ("x") (by norm_num) (by norm_num)

/-- C3: every element produced by any style of the layout generator carries
the shared font size max(width / 20, 24); in particular width 100 gives 24
and width 1000 gives 50. -/
theorem fontSize_shared_max :
    (∀ (width height : ℕ) (style text : String) (rand : ℕ → ℚ)
      (els : List OverlayElement),
      createWatermarkSVG width height style text rand = .ok els →
      ∀ e ∈ els, e.fontSize = max ((width : ℚ) / 20) 24) ∧
    fontSizeOf 100 = 24 ∧ fontSizeOf 1000 = 50 := by
  refine ⟨?_, by norm_num [fontSizeOf, jsMax_eq_max], by norm_num [fontSizeOf, jsMax_eq_max]⟩
  intro width height style text rand els h e he
  unfold createWatermarkSVG at h
  split_ifs at h
  · cases h
    simp only [diagonalElements, List.mem_flatMap, List.mem_map] at he
    obtain ⟨y, _, x, _, rfl⟩ := he
    exact jsMax_eq_max _ _
  · cases h
    simp only [gridElements, List.mem_flatMap, List.mem_map] at he
    obtain ⟨y, _, x, _, rfl⟩ := he
    exact jsMax_eq_max _ _
  · cases h
    simp only [scatteredElements, List.mem_map, List.mem_range] at he
    obtain ⟨i, _, rfl⟩ := he
    exact jsMax_eq_max _ _

/-- Witness for C3: the first grid element at width = height = 100. -/
theorem fontSize_shared_max_witness :
    (⟨0, 0, 24, 0, 3/10, "x"⟩ : OverlayElement).fontSize =
      max ((100 : ℚ) / 20) 24 :=
  fontSize_shared_max.1 100 100 ("grid") ("x") (fun _ => 0)
    (gridElements 100 100 ("x")) rfl _ (by decide)

/-- C4: for every positive width and height and every stream of draws from
the uniform random source over the interval from 0 inclusive to 1 exclusive,
the scattered layout has exactly 50 elements, each with x in that multiple
of width, y below height, rotation below 360, and opacity 0.3. -/
theorem scattered_layout_bounds (width height : ℕ) (text : String)
    (rand : ℕ → ℚ) (hw : 0 < width) (hh : 0 < height)
    (hrand : ∀ i, 0 ≤ rand i ∧ rand i < 1) :
    createWatermarkSVG width height ("scattered") text rand =
      .ok (scatteredElements width height text rand) ∧
    (scatteredElements width height text rand).length = 50 ∧
    ∀ e ∈ scatteredElements width height text rand,
      0 ≤ e.x ∧ e.x < (width : ℚ) ∧ 0 ≤ e.y ∧ e.y < (height : ℚ) ∧
      0 ≤ e.rotationDegrees ∧ e.rotationDegrees < 360 ∧
      e.opacityFraction = 3/10 := by
  refine ⟨rfl, by simp [scatteredElements], ?_⟩
  intro e he
  simp only [scatteredElements, List.mem_map, List.mem_range] at he
  obtain ⟨i, _, rfl⟩ := he
  have hwq : (0 : ℚ) < (width : ℚ) := by exact_mod_cast hw
  have hhq : (0 : ℚ) < (height : ℚ) := by exact_mod_cast hh
  have hx := hrand (3 * i)
  have hy := hrand (3 * i + 1)
  have hr := hrand (3 * i + 2)
  refine ⟨mul_nonneg hx.1 hwq.le, ?_, mul_nonneg hy.1 hhq.le, ?_,
    mul_nonneg hr.1 (by norm_num), ?_, rfl⟩
  · have := mul_lt_mul_of_pos_right hx.2 hwq
    simpa using this
  · have := mul_lt_mul_of_pos_right hy.2 hhq
    simpa using this
  · have := mul_lt_mul_of_pos_right hr.2 (show (0 : ℚ) < 360 by norm_num)
    simpa using this

/-- Witness for C4 at width = height = 1 with the constant zero stream. -/
theorem scattered_layout_bounds_witness :
    (scatteredElements 1 1 ("x") (fun _ => 0)).length = 50 :=
  (scattered_layout_bounds 1 1 ("x") (fun _ => 0) (by norm_num) (by norm_num)
    (fun _ => ⟨le_refl 0, by norm_num⟩)).2.1

/-- C5: for every style string other than diagonal, grid and scattered, the
layout generator fails with the invalid-style error instead of returning a
layout, for all dimensions and texts. -/
theorem invalid_style_rejected (width height : ℕ) (style text : String)
    (rand : ℕ → ℚ) (h1 : style ≠ "diagonal") (h2 : style ≠ "grid")
    (h3 : style ≠ "scattered") :
    createWatermarkSVG width height style text rand =
      .error ("Invalid watermark style") := by
  simp [createWatermarkSVG, h1, h2, h3]

/-- Witness for C5 at the style string unknown. -/
theorem invalid_style_rejected_witness :
    createWatermarkSVG 1 1 ("unknown") ("x") (fun _ => 0) =
      .error ("Invalid watermark style") :=
  invalid_style_rejected 1 1 ("unknown") ("x") (fun _ => 0)
    (by decide) (by decide) (by decide)

/-- Descriptor of the uploaded file as populated by the upload middleware:
the client-supplied original name, and the generated stored filename. -/
structure UploadedFile where
  originalname : String
  filename : String
deriving DecidableEq

/-- Observable effects of one handler invocation, in execution order:
deleting the uploaded input file, invoking the layout core (with the text
and style it receives), writing an output file, and sending the response
with its status code and message. -/
inductive Ev where
  | deleteInput : Ev
  | invokeCore : String → String → Ev
  | writeOutput : String → Ev
  | respond : ℕ → String → Ev
deriving DecidableEq

/-- Truthiness of a possibly-absent string value: undefined and the empty
string are falsy, every other string truthy. -/
def jsTruthy : Option String → Bool
  | none => false
  | some s => decide (s ≠ "")

/-- The expression a OR dflt on a possibly-absent string: the value of a
when truthy, otherwise the default. -/
def jsOrStr (a : Option String) (dflt : String) : String :=
  match a with
  | some s => if s = "" then dflt else s
  | none => dflt

/-- Resolution of a parameter readable from the query string or the body:
query OR body, the query value taking precedence when truthy. -/
def resolveParam (q b : Option String) : Option String :=
  if jsTruthy q then q else b

/-- Leading decimal digits of a character list, accumulated left to right;
none when no digit has been seen. -/
def parseNat : List Char → ℕ → Bool → Option ℕ
  | [], acc, seen => if seen then some acc else none
  | c :: rest, acc, seen =>
      if c.isDigit then parseNat rest (acc * 10 + (c.toNat - 48)) true
      else if seen then some acc else none

/-- Embedding of parseInt(s, 10): skip leading spaces, read an optional
sign and then leading decimal digits; none models NaN. -/
def parseIntJS (s : String) : Option ℤ :=
  match s.data.dropWhile (fun c => c = ' ') with
  | '-' :: rest => (parseNat rest 0 false).map (fun n => -(n : ℤ))
  | '+' :: rest => (parseNat rest 0 false).map (fun n => (n : ℤ))
  | cs => (parseNat cs 0 false).map (fun n => (n : ℤ))

/-- A dual-source numeric parameter: parseInt(query OR body, 10). -/
def parsedParam (q b : Option String) : Option ℤ :=
  (resolveParam q b).bind parseIntJS

/-- The test isNaN(x) on a parse result. -/
def isNaNJS (x : Option ℤ) : Bool := x.isNone

/-- The test x <= 0 on a parse result; false on NaN as in the source
language comparison semantics. -/
def leZeroJS : Option ℤ → Bool
  | none => false
  | some n => decide (n ≤ 0)

/-- Numeric falsiness: NaN and 0 are falsy. -/
def falsyNum : Option ℤ → Bool
  | none => true
  | some n => decide (n = 0)

/-- Stored filename generated by the upload middleware:
fieldname-uniqueSuffix followed by the original extension. -/
def multerFilename (fieldname uniqueSuffix ext : String) : String :=
  fieldname ++ ("-") ++ uniqueSuffix ++ ext

/-- Output name of the resize handler: resized- plus the stored filename. -/
def resizedName (f : UploadedFile) : String := ("resized-") ++ f.filename

/-- Output name of the crop handler: cropped- plus the stored filename. -/
def croppedName (f : UploadedFile) : String := ("cropped-") ++ f.filename

/-- Output name of the filter handler: filtered- plus the original name of
the uploaded file. -/
def filteredName (f : UploadedFile) : String := ("filtered-") ++ f.originalname

/-- Output name of the watermark handler: watermarked- plus a timestamp
token plus the original name. -/
def watermarkedName (nowTok : String) (f : UploadedFile) : String :=
  ("watermarked-") ++ nowTok ++ ("-") ++ f.originalname

/-- The resize handler: parse width and height from the query string, check
the file, reject non-numeric or non-positive dimensions, then the dead
both-falsy check, then process and respond. -/
def resizeImage (file : Option UploadedFile) (queryWidth queryHeight : Option String) :
    List Ev :=
  let width := queryWidth.bind parseIntJS
  let height := queryHeight.bind parseIntJS
  match file with
  | none => [.respond 400 ("No file uploaded")]
  | some f =>
    if isNaNJS width || isNaNJS height || leZeroJS width || leZeroJS height then
      [.deleteInput, .respond 400 ("Please specify valid positive values for width and height.")]
    else if falsyNum width && falsyNum height then
      [.deleteInput, .respond 400 ("The width and height parameters are required")]
    else
      [.writeOutput (resizedName f), .deleteInput,
        .respond 200 ("Image resized successfully!")]

/-- Modelled from the spec: the external raster library extract-area call,
not part of this repository.  It succeeds exactly when the requested region
lies inside the source bounds, and otherwise fails with an error message
containing extract_area: bad extract area. -/
def sharpExtract (srcW srcH left top width height : ℤ) : Except String Unit :=
  if 0 ≤ left ∧ 0 ≤ top ∧ 0 < width ∧ 0 < height ∧
      left + width ≤ srcW ∧ top + height ≤ srcH then .ok ()
  else .error ("extract_area: bad extract area")

/-- The crop handler: parse the four crop parameters from query or body,
check the file, reject non-positive cropWidth and cropHeight, then run the
library extraction (passed in as its outcome) and translate an
extract-area failure into 400, any other failure into 500. -/
def cropImage (file : Option UploadedFile)
    (qX bX qY bY qW bW qH bH : Option String) (extract : Except String Unit) :
    List Ev :=
  let _cropX := parsedParam qX bX
  let _cropY := parsedParam qY bY
  let cropWidth := parsedParam qW bW
  let cropHeight := parsedParam qH bH
  match file with
  | none => [.respond 400 ("No file uploaded")]
  | some f =>
    if isNaNJS cropWidth || isNaNJS cropHeight ||
        leZeroJS cropWidth || leZeroJS cropHeight then
      [.deleteInput, .respond 400 ("Please specify valid positive values for cropWidth and cropHeight.")]
    else
      match extract with
      | .ok _ =>
          [.writeOutput (croppedName f), .deleteInput,
            .respond 200 ("Image cropped successfully!")]
      | .error e =>
          if ("extract_area: bad extract area").data <:+: e.data then
            [.deleteInput, .respond 400 ("Invalid crop parameters. Please check the coordinates and dimensions.")]
          else
            [.deleteInput, .respond 500 ("Error processing image.")]

/-- The filter handler: check the file, resolve the filter name from query
or body, reject a falsy filter, switch on its lowercase form, and process
or reject an unrecognized filter. -/
def filterImage (file : Option UploadedFile) (qFilter bFilter : Option String) :
    List Ev :=
  match file with
  | none => [.respond 400 ("No file uploaded")]
  | some f =>
    let filter := resolveParam qFilter bFilter
    if !jsTruthy filter then
      [.deleteInput, .respond 400 ("Please specify a filter (grayscale or blur)")]
    else
      match (jsOrStr filter ("")).toLower with
      | "grayscale" =>
          [.writeOutput (filteredName f), .deleteInput,
            .respond 200 ("Image filtered successfully!")]
      | "blur" =>
          [.writeOutput (filteredName f), .deleteInput,
            .respond 200 ("Image filtered successfully!")]
      | _ => [.deleteInput, .respond 400 ("Invalid filter. Supported filters are grayscale and blur.")]

/-- The watermark handler: check the file, reject when neither the query
nor the body carries a truthy watermark text, resolve the text (query over
body over the dead literal default) and the style (query only, default
diagonal), invoke the layout core and respond; a core failure is caught as
a 500. -/
def waterMarkImage (file : Option UploadedFile)
    (qWatermark bWatermark qStyle _bStyle : Option String)
    (metaW metaH : ℕ) (rand : ℕ → ℚ) (nowTok : String) : List Ev :=
  match file with
  | none => [.respond 400 ("No file uploaded")]
  | some f =>
    if !jsTruthy qWatermark && !jsTruthy bWatermark then
      [.deleteInput, .respond 400 ("Watermark text is required")]
    else
      let rawWatermarkText := jsOrStr qWatermark (jsOrStr bWatermark ("Watermark"))
      let watermarkStyle := jsOrStr qStyle ("diagonal")
      match createWatermarkSVG metaW metaH watermarkStyle rawWatermarkText rand with
      | .ok _ =>
          [.invokeCore rawWatermarkText watermarkStyle,
            .writeOutput (watermarkedName nowTok f), .deleteInput,
            .respond 200 ("Image watermarked successfully!")]
      | .error _ => [.deleteInput, .respond 500 ("Error processing image")]

/-- Strings with equal left factor and equal concatenation have equal right
factors. -/
lemma str_append_left_cancel (p a b : String) (h : p ++ a = p ++ b) : a = b := by
  cases p with | mk pd =>
  cases a with | mk ad =>
  cases b with | mk bd =>
  have h2 : pd ++ ad = pd ++ bd := congrArg String.data h
  exact congrArg String.mk (List.append_cancel_left h2)

/-- Strings with equal right factor and equal concatenation have equal left
factors. -/
lemma str_append_right_cancel (a b s : String) (h : a ++ s = b ++ s) : a = b := by
  cases s with | mk sd =>
  cases a with | mk ad =>
  cases b with | mk bd =>
  have h2 : ad ++ sd = bd ++ sd := congrArg String.data h
  exact congrArg String.mk (List.append_cancel_right h2)

/-- C6: a watermark request with an uploaded file but no truthy watermark
text in query or body deletes the uploaded input and then responds 400 with
message Watermark text is required; the layout core is never invoked, so no
default text is applied. -/
theorem watermark_missing_text_400 (f : UploadedFile)
    (qw bw qs bs : Option String) (w h : ℕ) (rand : ℕ → ℚ) (nowTok : String)
    (hq : jsTruthy qw = false) (hb : jsTruthy bw = false) :
    waterMarkImage (some f) qw bw qs bs w h rand nowTok =
      [.deleteInput, .respond 400 ("Watermark text is required")] := by
  simp [waterMarkImage, hq, hb]

/-- Witness for C6 with both watermark sources absent. -/
theorem watermark_missing_text_400_witness :
    waterMarkImage (some ⟨("a.jpg"), ("img.jpg")⟩) none none none none 1 1
      (fun _ => 0) ("t0") =
      [.deleteInput, .respond 400 ("Watermark text is required")] :=
  watermark_missing_text_400 ⟨("a.jpg"), ("img.jpg")⟩ none none none none 1 1
    (fun _ => 0) ("t0") rfl rfl

/-- C7 counterexample: two distinct filter requests (distinct stored
filenames from distinct upload suffixes) on files with the same original
name produce the same filtered output name, so the filtered output carries
no uniqueness token. -/
theorem filtered_name_collision_cex :
    (⟨("photo.jpg"), multerFilename ("image") ("100-1") (".jpg")⟩ : UploadedFile) ≠
      ⟨("photo.jpg"), multerFilename ("image") ("200-2") (".jpg")⟩ ∧
    filteredName ⟨("photo.jpg"), multerFilename ("image") ("100-1") (".jpg")⟩ =
      filteredName ⟨("photo.jpg"), multerFilename ("image") ("200-2") (".jpg")⟩ :=
  ⟨by decide, rfl⟩

/-- C7 amended: resized- and cropped- outputs are injective in the stored
filename, watermarked- outputs are injective in the timestamp token, the
middleware filename is injective in the unique suffix, but the filtered-
output depends only on the original name. -/
theorem output_name_uniqueness_amended :
    (∀ f g : UploadedFile, f.filename ≠ g.filename →
      resizedName f ≠ resizedName g ∧ croppedName f ≠ croppedName g) ∧
    (∀ (t1 t2 : String) (f : UploadedFile), t1 ≠ t2 →
      watermarkedName t1 f ≠ watermarkedName t2 f) ∧
    (∀ fd t1 t2 ext : String, t1 ≠ t2 →
      multerFilename fd t1 ext ≠ multerFilename fd t2 ext) ∧
    (∀ f g : UploadedFile, f.originalname = g.originalname →
      filteredName f = filteredName g) := by
  refine ⟨?_, ?_, ?_, ?_⟩
  · intro f g hne
    constructor
    · intro h
      exact hne (str_append_left_cancel _ _ _ h)
    · intro h
      exact hne (str_append_left_cancel _ _ _ h)
  · intro t1 t2 f hne h
    unfold watermarkedName at h
    have h1 := str_append_right_cancel _ _ _ h
    have h2 := str_append_right_cancel _ _ _ h1
    exact hne (str_append_left_cancel _ _ _ h2)
  · intro fd t1 t2 ext hne h
    unfold multerFilename at h
    have h1 := str_append_right_cancel _ _ _ h
    exact hne (str_append_left_cancel _ _ _ h1)
  · intro f g h
    unfold filteredName
    rw [h]

/-- Witness for C7 amended: distinct stored filenames give distinct resized
output names. -/
theorem output_name_uniqueness_amended_witness :
    resizedName ⟨("a.jpg"), ("img-1.jpg")⟩ ≠ resizedName ⟨("a.jpg"), ("img-2.jpg")⟩ :=
  (output_name_uniqueness_amended.1 ⟨("a.jpg"), ("img-1.jpg")⟩
    ⟨("a.jpg"), ("img-2.jpg")⟩ (by decide)).1

/-- C8: when validation passes (positive parsed cropWidth and cropHeight)
and the extraction region exceeds the source bounds, the modelled library
failure is translated into a 400 response with the input deleted, and any
library failure whose message does not contain the extract-area marker is
translated into a 500 response. -/
theorem crop_extract_error_translation (f : UploadedFile)
    (qX bX qY bY qW bW qH bH : Option String) (w h x y srcW srcH : ℤ)
    (hpx : parsedParam qX bX = some x) (hpy : parsedParam qY bY = some y)
    (hpw : parsedParam qW bW = some w) (hph : parsedParam qH bH = some h)
    (hw : 0 < w) (hh : 0 < h)
    (hgeom : srcW < x + w ∨ srcH < y + h ∨ x < 0 ∨ y < 0) :
    cropImage (some f) qX bX qY bY qW bW qH bH
        (sharpExtract srcW srcH x y w h) =
      [.deleteInput, .respond 400 ("Invalid crop parameters. Please check the coordinates and dimensions.")] ∧
    ∀ e : String, ¬(("extract_area: bad extract area").data <:+: e.data) →
      cropImage (some f) qX bX qY bY qW bW qH bH (.error e) =
        [.deleteInput, .respond 500 ("Error processing image.")] := by
  have hval : (isNaNJS (parsedParam qW bW) || isNaNJS (parsedParam qH bH) ||
      leZeroJS (parsedParam qW bW) || leZeroJS (parsedParam qH bH)) = false := by
    rw [hpw, hph]
    simp [isNaNJS, leZeroJS]
    omega
  constructor
  · have hex : sharpExtract srcW srcH x y w h =
        .error ("extract_area: bad extract area") := by
      unfold sharpExtract
      rw [if_neg]
      rintro ⟨c1, c2, c3, c4, c5, c6⟩
      omega
    rw [hex]
    simp only [cropImage, hval, Bool.false_eq_true, if_false]
    have hself : ("extract_area: bad extract area").data <:+:
        ("extract_area: bad extract area").data := ⟨[], [], by simp⟩
    rw [if_pos hself]
  · intro e he
    simp only [cropImage, hval, Bool.false_eq_true, if_false]
    rw [if_neg he]

/-- Witness for C8: a 100 by 100 region at offset 10,10 inside a 50 by 50
source is rejected with the 400 translation. -/
theorem crop_extract_error_translation_witness :
    cropImage (some ⟨("a.jpg"), ("img.jpg")⟩) (some ("10")) none (some ("10"))
        none (some ("100")) none (some ("100")) none
        (sharpExtract 50 50 10 10 100 100) =
      [.deleteInput, .respond 400 ("Invalid crop parameters. Please check the coordinates and dimensions.")] :=
  (crop_extract_error_translation ⟨("a.jpg"), ("img.jpg")⟩ (some ("10")) none
    (some ("10")) none (some ("100")) none (some ("100")) none
    100 100 10 10 50 50 (by decide) (by decide) (by decide) (by decide)
    (by decide) (by decide) (Or.inl (by decide))).1

/-- C9 counterexample: with the file present and watermark text in the
query, a style supplied only in the body is ignored (the core is invoked
with the default diagonal), unlike the same style supplied in the query, so
the two requests behave differently. -/
theorem body_style_ignored_cex :
    waterMarkImage (some ⟨("a.jpg"), ("img.jpg")⟩) (some ("T")) none none
        (some ("grid")) 1 1 (fun _ => 0) ("t0") =
      [.invokeCore ("T") ("diagonal"),
        .writeOutput (watermarkedName ("t0") ⟨("a.jpg"), ("img.jpg")⟩),
        .deleteInput, .respond 200 ("Image watermarked successfully!")] ∧
    waterMarkImage (some ⟨("a.jpg"), ("img.jpg")⟩) (some ("T")) none none
        (some ("grid")) 1 1 (fun _ => 0) ("t0") ≠
      waterMarkImage (some ⟨("a.jpg"), ("img.jpg")⟩) (some ("T")) none
        (some ("grid")) none 1 1 (fun _ => 0) ("t0") :=
  ⟨by decide, by decide⟩

/-- C9 amended: crop coordinates, the filter name and the watermark text
are resolved from query or body with the query taking precedence when
truthy; the watermark style is read from the query alone with default
diagonal, the body style being ignored entirely. -/
theorem param_resolution_amended :
    (∀ a b : Option String, jsTruthy a = true → resolveParam a b = a) ∧
    (∀ a b : Option String, jsTruthy a = false → resolveParam a b = b) ∧
    (∀ v d : String, v ≠ "" → jsOrStr (some v) d = v) ∧
    (∀ d : String, jsOrStr none d = d) ∧
    (∀ (file : Option UploadedFile) (qw bw qs bs1 bs2 : Option String)
      (w h : ℕ) (rand : ℕ → ℚ) (nowTok : String),
      waterMarkImage file qw bw qs bs1 w h rand nowTok =
        waterMarkImage file qw bw qs bs2 w h rand nowTok) := by
  refine ⟨?_, ?_, ?_, fun d => rfl, fun _ _ _ _ _ _ _ _ _ _ => rfl⟩
  · intro a b hab
    simp [resolveParam, hab]
  · intro a b hab
    simp [resolveParam, hab]
  · intro v d hv
    simp [jsOrStr, hv]

/-- Witness for C9 amended: a truthy query filter takes precedence over the
body value. -/
theorem param_resolution_amended_witness :
    resolveParam (some ("grayscale")) (some ("blur")) = some ("grayscale") :=
  param_resolution_amended.1 (some ("grayscale")) (some ("blur")) (by decide)

/-- C10: the resize handler can never produce the 400 response with message
The width and height parameters are required: every request that passes the
positivity check has truthy width and height, so the both-falsy branch is
dead. -/
theorem resize_required_branch_unreachable (file : Option UploadedFile)
    (queryWidth queryHeight : Option String) :
    Ev.respond 400 ("The width and height parameters are required") ∉
      resizeImage file queryWidth queryHeight := by
  intro hmem
  cases file with
  | none =>
      simp only [resizeImage, List.mem_singleton] at hmem
      exact absurd hmem (by decide)
  | some f =>
      simp only [resizeImage] at hmem
      split at hmem
      · exact absurd hmem (by decide)
      · next hc1 =>
          split at hmem
          · next hc2 =>
              rcases hqw : queryWidth.bind parseIntJS with _ | n
              · rw [hqw] at hc1
                simp [isNaNJS] at hc1
              · rcases hqh : queryHeight.bind parseIntJS with _ | m
                · rw [hqh] at hc1
                  simp [isNaNJS] at hc1
                · rw [hqw, hqh] at hc1 hc2
                  simp [isNaNJS, leZeroJS, falsyNum] at hc1 hc2
                  omega
          · next hc2 =>
              simp at hmem

end ImageAPI
